import Mathlib

/-!
Verification of the polyphonic synthesis engine (oscillator, ADSR envelope,
state-variable filter, voice pool, MIDI interpreter, render loop).

The Rust source operates on `f32`; we embed the arithmetic in an arbitrary
linear ordered field `F` (instantiated at `ℚ` for executable checks and at
`ℝ` when the transcendental functions matter).  The transcendental
primitives the source calls (`sin`, `2.0f32.powf`, the constant `PI`) are
gathered in an `Ops` record, so that theorems can either hold for every
interpretation of those primitives or be instantiated with the real ones.
-/

namespace Synth

variable {F : Type} [LinearOrderedField F] [FloorRing F]

/-- The transcendental primitives used by the engine: `sin`, `x ↦ 2^x`
(`2.0_f32.powf` in the source) and the constant `π`. -/
structure Ops (F : Type) where
  sin : F → F
  pow2 : F → F
  pi : F

/- The real interpretation of the primitives is
`⟨Real.sin, fun x => 2 ^ x, Real.pi⟩`; it is spelled out inside the theorem
statements that need it, since it carries no executable code. -/

/-- A dummy rational interpretation, used for concrete traces whose control
flow does not depend on the value of any transcendental function. -/
def ratOps : Ops ℚ :=
  { sin := fun _ => 0, pow2 := fun _ => 1, pi := 0 }

/-- `f32::max` — returns the greater argument. -/
def fmax (a b : F) : F := if a < b then b else a

/-- `f32::min` — returns the smaller argument. -/
def fmin (a b : F) : F := if b < a then b else a

/-! ## Envelope (src/envelope.rs) -/

/-- `enum EnvelopeState` from src/envelope.rs. -/
inductive EnvelopeState where
  | Idle
  | Attack
  | Decay
  | Sustain
  | Release
deriving DecidableEq

/-- `struct Envelope` from src/envelope.rs.  The seconds field `release` of
the source is named `releaseSecs` here because the transition `release()`
keeps the source name. -/
structure Envelope (F : Type) where
  sample_rate : F
  state : EnvelopeState
  value : F
  attack : F
  decay : F
  sustain : F
  releaseSecs : F
  attack_rate : F
  decay_rate : F
  release_rate : F
  release_level : F

namespace Envelope

/-- `Envelope::recalculate_rates`. -/
def recalculate_rates (e : Envelope F) : Envelope F :=
  { e with
    attack_rate := 1 / (e.attack * e.sample_rate)
    decay_rate := (1 - e.sustain) / (e.decay * e.sample_rate)
    release_rate := e.sustain / (e.releaseSecs * e.sample_rate) }

/-- `Envelope::new`. -/
def new (sample_rate : F) : Envelope F :=
  recalculate_rates
    { sample_rate := sample_rate
      state := .Idle
      value := 0
      attack := 1/100
      decay := 1/10
      sustain := 7/10
      releaseSecs := 3/10
      attack_rate := 0
      decay_rate := 0
      release_rate := 0
      release_level := 0 }

/-- `Envelope::set_sample_rate`. -/
def set_sample_rate (e : Envelope F) (sample_rate : F) : Envelope F :=
  recalculate_rates { e with sample_rate := sample_rate }

/-- `Envelope::set_attack` (clamped to a minimum of 1 ms). -/
def set_attack (e : Envelope F) (seconds : F) : Envelope F :=
  recalculate_rates { e with attack := fmax seconds (1/1000) }

/-- `Envelope::set_decay` (clamped to a minimum of 1 ms). -/
def set_decay (e : Envelope F) (seconds : F) : Envelope F :=
  recalculate_rates { e with decay := fmax seconds (1/1000) }

/-- `Envelope::set_sustain` (clamped to `[0,1]`; does not recalculate). -/
def set_sustain (e : Envelope F) (level : F) : Envelope F :=
  { e with sustain := fmin (fmax level 0) 1 }

/-- `Envelope::set_release` (clamped to a minimum of 1 ms). -/
def set_release (e : Envelope F) (seconds : F) : Envelope F :=
  recalculate_rates { e with releaseSecs := fmax seconds (1/1000) }

/-- `Envelope::trigger`. -/
def trigger (e : Envelope F) : Envelope F :=
  { e with state := .Attack }

/-- `Envelope::release`. -/
def release (e : Envelope F) : Envelope F :=
  if e.state ≠ EnvelopeState.Idle then
    { e with state := .Release, release_level := e.value }
  else e

/-- `Envelope::is_idle`. -/
def is_idle (e : Envelope F) : Bool :=
  e.state == EnvelopeState.Idle

/-- `Envelope::next_value`: returns the produced value and the updated
envelope. -/
def next_value (e : Envelope F) : F × Envelope F :=
  let e' :=
    match e.state with
    | .Idle => { e with value := 0 }
    | .Attack =>
        let v := e.value + e.attack_rate
        if v ≥ 1 then { e with value := 1, state := .Decay }
        else { e with value := v }
    | .Decay =>
        let v := e.value - e.decay_rate
        if v ≤ e.sustain then { e with value := e.sustain, state := .Sustain }
        else { e with value := v }
    | .Sustain => { e with value := e.sustain }
    | .Release =>
        let v := e.value - e.release_rate
        if v ≤ 0 then { e with value := 0, state := .Idle }
        else { e with value := v }
  (e'.value, e')

/-- `n` successive calls to `next_value`, keeping only the envelope. -/
def stepN (n : ℕ) (e : Envelope F) : Envelope F :=
  (fun e => (next_value e).2)^[n] e

end Envelope

/-! ## Oscillator (src/oscillator.rs) -/

/-- `enum OscillatorType`. -/
inductive OscillatorType where
  | Sine
  | Square
  | Saw
  | Triangle
  | Wavetable
  | FM
deriving DecidableEq

/-- `struct FMParams`. -/
structure FMParams (F : Type) where
  carrier_ratio : F
  modulator_ratio : F
  mod_index : F
  modulator_phase : F

/-- `FMParams::default`. -/
def FMParams.default : FMParams F :=
  { carrier_ratio := 1, modulator_ratio := 2, mod_index := 3, modulator_phase := 0 }

/-- `struct Wavetable`. -/
structure Wavetable (F : Type) where
  table : List F
  size : ℕ

namespace Wavetable

/-- `Wavetable::new` (table filled with one sine period). -/
def new (ops : Ops F) (size : ℕ) : Wavetable F :=
  { table := (List.range size).map (fun i => ops.sin ((i : F) / (size : F) * 2 * ops.pi))
    size := size }

/-- `Wavetable::get_sample` (linear interpolation; `Int.fract` embeds
`phase - phase.floor()`, and `pos as usize` is the floor of the nonnegative
`pos`). -/
def get_sample (w : Wavetable F) (phase : F) : F :=
  let phase_normalized := Int.fract phase
  let pos := phase_normalized * (w.size : F)
  let pos_i := (⌊pos⌋).toNat % w.size
  let pos_f := pos - (pos_i : F)
  let sample1 := w.table.getD pos_i 0
  let sample2 := w.table.getD ((pos_i + 1) % w.size) 0
  sample1 + pos_f * (sample2 - sample1)

/-- `Wavetable::generate`. -/
def generate (ops : Ops F) (w : Wavetable F) (wave_type : OscillatorType) : Wavetable F :=
  { w with
    table := (List.range w.size).map (fun i =>
      let phase : F := (i : F) / (w.size : F)
      match wave_type with
      | .Sine => ops.sin (phase * 2 * ops.pi)
      | .Square => if phase < 1/2 then 1 else -1
      | .Saw => 2 * phase - 1
      | .Triangle =>
          if phase < 1/4 then phase * 4
          else if phase < 3/4 then 2 - phase * 4
          else phase * 4 - 4
      | .Wavetable => ops.sin (phase * 2 * ops.pi)
      | .FM => ops.sin (phase * 2 * ops.pi)) }

end Wavetable

/-- `struct Oscillator`. -/
structure Oscillator (F : Type) where
  sample_rate : F
  frequency : F
  phase : F
  osc_type : OscillatorType
  wavetable : Wavetable F
  fm_params : FMParams F

namespace Oscillator

/-- `Oscillator::new` (2048-cell sine wavetable, 440 Hz, phase 0). -/
def new (ops : Ops F) (sample_rate : F) : Oscillator F :=
  { sample_rate := sample_rate
    frequency := 440
    phase := 0
    osc_type := .Sine
    wavetable := (Wavetable.new ops 2048).generate ops .Sine
    fm_params := FMParams.default }

/-- `Oscillator::set_frequency` (clamped to `[0.1, 20000]`). -/
def set_frequency (o : Oscillator F) (frequency : F) : Oscillator F :=
  { o with frequency := fmin (fmax frequency (1/10)) 20000 }

/-- `Oscillator::set_sample_rate`. -/
def set_sample_rate (o : Oscillator F) (sample_rate : F) : Oscillator F :=
  { o with sample_rate := sample_rate }

/-- `Oscillator::generate_complex_wavetable` (16 harmonics with `1/h`
amplitudes, then peak-normalized). -/
def generate_complex_wavetable (ops : Ops F) (o : Oscillator F) : Oscillator F :=
  let size := o.wavetable.size
  let tbl := (List.range size).map (fun i =>
    (List.range 16).foldl (fun acc h =>
      let harmonic : ℕ := h + 1
      let amplitude : F := 1 / (harmonic : F)
      let phase : F := (i : F) / (size : F)
      let harmonic_phase := phase * (harmonic : F)
      acc + amplitude * ops.sin (harmonic_phase * 2 * ops.pi)) 0)
  let max_amplitude := tbl.foldl (fun m s => max m |s|) 0
  let tbl := if max_amplitude > 0 then tbl.map (fun s => s / max_amplitude) else tbl
  { o with wavetable := { table := tbl, size := size } }

/-- `Oscillator::set_type` (regenerates the wavetable only on a transition
into Wavetable mode). -/
def set_type (ops : Ops F) (o : Oscillator F) (osc_type : OscillatorType) : Oscillator F :=
  let o :=
    if osc_type = OscillatorType.Wavetable ∧ o.osc_type ≠ OscillatorType.Wavetable then
      generate_complex_wavetable ops o
    else o
  { o with osc_type := osc_type }

/-- `Oscillator::get_frequency`. -/
def get_frequency (o : Oscillator F) : F :=
  o.frequency

/-- `Oscillator::set_fm_params`. -/
def set_fm_params (o : Oscillator F) (carrier_ratio modulator_ratio mod_index : F) :
    Oscillator F :=
  { o with fm_params := { o.fm_params with carrier_ratio, modulator_ratio, mod_index } }

/-- `Oscillator::process_fm` (`Int.fract` embeds `x -= x.floor()`). -/
def process_fm (ops : Ops F) (o : Oscillator F) : F × Oscillator F :=
  let mod_freq := o.frequency * o.fm_params.modulator_ratio
  let carrier_freq := o.frequency * o.fm_params.carrier_ratio
  let modulator_phase := Int.fract (o.fm_params.modulator_phase + mod_freq / o.sample_rate)
  let mod_amount := o.fm_params.mod_index * ops.sin (modulator_phase * 2 * ops.pi)
  let carrier_phase := o.phase + mod_amount / (2 * ops.pi)
  let output := ops.sin (carrier_phase * 2 * ops.pi)
  let phase := Int.fract (o.phase + carrier_freq / o.sample_rate)
  (output, { o with phase := phase, fm_params := { o.fm_params with modulator_phase } })

/-- `Oscillator::poly_blep`. -/
def poly_blep (o : Oscillator F) (t : F) : F :=
  let dt := o.frequency / o.sample_rate
  if t < dt then
    let s := t / dt
    s * s * 2 - s * 4 + 2
  else if t > 1 - dt then
    let s := (t - 1) / dt + 1
    s * s * 2 - s * 4 + 2
  else 0

/-- `Oscillator::bl_saw`. -/
def bl_saw (o : Oscillator F) : F :=
  (2 * o.phase - 1) - poly_blep o o.phase

/-- `Oscillator::bl_square` (`(phase + 0.5) % 1.0` is `Int.fract` on the
nonnegative phase). -/
def bl_square (o : Oscillator F) : F :=
  (if o.phase < 1/2 then (1 : F) else -1) - poly_blep o o.phase
    + poly_blep o (Int.fract (o.phase + 1/2))

/-- `Oscillator::bl_triangle`. -/
def bl_triangle (o : Oscillator F) : F :=
  let p := o.phase
  if p < 1/4 then p * 4
  else if p < 3/4 then 2 - p * 4
  else p * 4 - 4

/-- `Oscillator::next_sample`: computes the sample from the pre-advance
phase, then (for non-FM types) advances the phase by
`frequency / sample_rate` wrapped into `[0,1)`; FM advances its own phases
inside `process_fm`. -/
def next_sample (ops : Ops F) (o : Oscillator F) : F × Oscillator F :=
  let step := fun (sample : F) =>
    (sample, { o with phase := Int.fract (o.phase + o.frequency / o.sample_rate) })
  match o.osc_type with
  | .Sine => step (ops.sin (o.phase * 2 * ops.pi))
  | .Square => step (bl_square o)
  | .Saw => step (bl_saw o)
  | .Triangle => step (bl_triangle o)
  | .Wavetable => step (o.wavetable.get_sample o.phase)
  | .FM => process_fm ops o

end Oscillator

/-! ## Filter (src/filter.rs) -/

/-- `enum FilterType`. -/
inductive FilterType where
  | LowPass
  | HighPass
  | BandPass
deriving DecidableEq

/-- `struct Filter`. -/
structure Filter (F : Type) where
  sample_rate : F
  cutoff : F
  resonance : F
  filter_type : FilterType
  x1 : F
  x2 : F
  y1 : F
  y2 : F

namespace Filter

/-- `Filter::new`. -/
def new (sample_rate : F) : Filter F :=
  { sample_rate := sample_rate
    cutoff := 1000
    resonance := 1/2
    filter_type := .LowPass
    x1 := 0, x2 := 0, y1 := 0, y2 := 0 }

/-- `Filter::set_sample_rate`. -/
def set_sample_rate (f : Filter F) (sample_rate : F) : Filter F :=
  { f with sample_rate := sample_rate }

/-- `Filter::set_cutoff` (clamped to `[20, 20000]`). -/
def set_cutoff (f : Filter F) (cutoff : F) : Filter F :=
  { f with cutoff := fmin (fmax cutoff 20) 20000 }

/-- `Filter::set_resonance` (clamped to `[0, 0.99]`). -/
def set_resonance (f : Filter F) (resonance : F) : Filter F :=
  { f with resonance := fmin (fmax resonance 0) (99/100) }

/-- `Filter::set_type`. -/
def set_type (f : Filter F) (filter_type : FilterType) : Filter F :=
  { f with filter_type := filter_type }

/-- `Filter::process` (12 dB/octave state-variable filter): returns the
output sample and the updated filter. -/
def process (f : Filter F) (input : F) : F × Filter F :=
  let fr := 2 * f.cutoff / f.sample_rate
  let q := 1 - f.resonance
  let hp := q * input - q * f.x1 - f.y1
  let bp := hp + f.y1
  let lp := bp + f.y2
  let f' := { f with y1 := bp * fr + f.y1, y2 := lp * fr + f.y2, x1 := input }
  ((match f.filter_type with
    | .LowPass => lp
    | .HighPass => hp
    | .BandPass => bp), f')

end Filter


/-! ## Parameters (src/parameters.rs) -/

/-- `enum Parameter` (without the `COUNT` sentinel, which names no
parameter). -/
inductive Parameter where
  | OscillatorType
  | Attack
  | Decay
  | Sustain
  | Release
  | FilterType
  | FilterCutoff
  | FilterResonance
  | FMCarrierRatio
  | FMModulatorRatio
  | FMModIndex
  | WavetableHarmonics
  | MasterGain
deriving DecidableEq

/-- `Parameter::get_default`. -/
def Parameter.get_default : Parameter → F
  | .OscillatorType => 0
  | .Attack => 1/100
  | .Decay => 1/10
  | .Sustain => 7/10
  | .Release => 3/10
  | .FilterType => 0
  | .FilterCutoff => 1
  | .FilterResonance => 1/10
  | .FMCarrierRatio => 1/2
  | .FMModulatorRatio => 1/2
  | .FMModIndex => 3/10
  | .WavetableHarmonics => 1/2
  | .MasterGain => 1/2

/-- `struct SynthParameters`: one independently readable cell per
parameter, plus the global modulation time. -/
structure SynthParameters (F : Type) where
  values : Parameter → F
  time : F

namespace SynthParameters

/-- `SynthParameters::default`. -/
def default : SynthParameters F :=
  { values := Parameter.get_default, time := 0 }

/-- `SynthParameters::get_parameter`. -/
def get_parameter (p : SynthParameters F) (param : Parameter) : F :=
  p.values param

end SynthParameters

/-! ## Voice and voice pool (src/lib.rs) -/

/-- `const MAX_VOICES: usize = 16`. -/
def MAX_VOICES : ℕ := 16

/-- `struct Voice`. -/
structure Voice (F : Type) where
  active : Bool
  note : ℕ
  velocity : F
  oscillator : Oscillator F
  envelope : Envelope F
  pitch_bend : F
  modulation : F

/-- The frequency multiplier the vibrato applies for one sample:
`1.0 + lfo_value` with
`lfo_value = (PI * 5.0 * time).sin() * (modulation * 0.05)`
(from `Voice::next_sample`, src/lib.rs lines 129-136). -/
def vibrato_factor (ops : Ops F) (modulation time : F) : F :=
  let vibrato_amount := modulation * (5/100)
  let lfo_value := ops.sin (ops.pi * 5 * time) * vibrato_amount
  1 + lfo_value

/-- Modelled from the spec (§4.4): the vibrato multiplier the specification
prescribes, `1 + modulation·0.05·sin(2π·5·global_time)`, to be compared
with the `vibrato_factor` the code computes. -/
def vibrato_factor_spec (ops : Ops F) (modulation time : F) : F :=
  1 + modulation * (5/100) * ops.sin (2 * ops.pi * 5 * time)

namespace Voice

/-- `Voice::new`. -/
def new (ops : Ops F) : Voice F :=
  { active := false
    note := 0
    velocity := 0
    oscillator := Oscillator.new ops 44100
    envelope := Envelope.new 44100
    pitch_bend := 0
    modulation := 0 }

/-- `Voice::update_frequency` (MIDI note plus ±2-semitone bend to Hz). -/
def update_frequency (ops : Ops F) (v : Voice F) : Voice F :=
  let bend_semitones := v.pitch_bend * 2
  let note_with_bend := (v.note : F) + bend_semitones
  let frequency := 440 * ops.pow2 ((note_with_bend - 69) / 12)
  { v with oscillator := v.oscillator.set_frequency frequency }

/-- `Voice::start`. -/
def start (ops : Ops F) (v : Voice F) (note : ℕ) (velocity : F) : Voice F :=
  let v := { v with active := true, note := note, velocity := velocity }
  let v := update_frequency ops v
  { v with envelope := v.envelope.trigger }

/-- `Voice::stop`. -/
def stop (v : Voice F) : Voice F :=
  { v with envelope := v.envelope.release }

/-- `Voice::is_active`. -/
def is_active (v : Voice F) : Bool :=
  v.active && !v.envelope.is_idle

/-- `Voice::set_pitch_bend`. -/
def set_pitch_bend (ops : Ops F) (v : Voice F) (bend : F) : Voice F :=
  update_frequency ops { v with pitch_bend := bend }

/-- `Voice::set_modulation`. -/
def set_modulation (v : Voice F) (mod_value : F) : Voice F :=
  { v with modulation := mod_value }

/-- `Voice::next_sample`: one sample of this voice given the shared
parameter set; returns the sample and the updated voice. -/
def next_sample (ops : Ops F) (params : SynthParameters F) (v : Voice F) : F × Voice F :=
  if ¬ (is_active v = true) then (0, { v with active := false })
  else
    let osc_type :=
      let x := params.get_parameter .OscillatorType
      if x < 17/100 then OscillatorType.Sine
      else if x < 33/100 then .Square
      else if x < 1/2 then .Saw
      else if x < 67/100 then .Triangle
      else if x < 83/100 then .Wavetable
      else .FM
    let v := { v with oscillator := v.oscillator.set_type ops osc_type }
    let v :=
      if osc_type = OscillatorType.FM then
        let carrier_ratio := 1/2 + params.get_parameter .FMCarrierRatio * (3/2)
        let modulator_ratio := 1/2 * ops.pow2 (4 * params.get_parameter .FMModulatorRatio)
        let mod_index := params.get_parameter .FMModIndex * 10
        { v with oscillator := v.oscillator.set_fm_params carrier_ratio modulator_ratio mod_index }
      else v
    let so := v.oscillator.next_sample ops
    let sample := so.1
    let v := { v with oscillator := so.2 }
    let sv : F × Voice F :=
      if v.modulation > 0 then
        let base_freq := v.oscillator.get_frequency
        let o := v.oscillator.set_frequency
          (base_freq * vibrato_factor ops v.modulation params.time)
        let s2o := o.next_sample ops
        let o := s2o.2.set_frequency base_freq
        (s2o.1, { v with oscillator := o })
      else (sample, v)
    let sample := sv.1
    let v := sv.2
    let e := v.envelope.set_attack (params.get_parameter .Attack * 5)
    let e := e.set_decay (params.get_parameter .Decay * 5)
    let e := e.set_sustain (params.get_parameter .Sustain)
    let e := e.set_release (params.get_parameter .Release * 5)
    let ve := e.next_value
    (sample * ve.1 * v.velocity, { v with envelope := ve.2 })

end Voice

/-- First index at which a predicate holds, mirroring the
`for (i, voice) in voices.iter_mut().enumerate()` scan of `note_on`. -/
def firstIdx {α : Type} (p : α → Bool) : List α → Option ℕ
  | [] => none
  | a :: as => if p a then some 0 else (firstIdx p as).map (· + 1)

/-- In-place update of the element at index `i` (no-op out of bounds),
mirroring `self.voices[i] = ...` style mutation. -/
def updateAt {α : Type} : List α → ℕ → (α → α) → List α
  | [], _, _ => []
  | a :: as, 0, f => f a :: as
  | a :: as, n + 1, f => a :: updateAt as n f

/-- `struct BasicSynth` (the host-facing fields — editor handle — carry no
engine state and are omitted). `note_to_voice` embeds the
`HashMap<u8, usize>` as a partial map. -/
structure BasicSynth (F : Type) where
  sample_rate : F
  params : SynthParameters F
  voices : List (Voice F)
  filter : Filter F
  note_to_voice : ℕ → Option ℕ

namespace BasicSynth

/-- `BasicSynth::new`. -/
def new (ops : Ops F) : BasicSynth F :=
  { sample_rate := 44100
    params := SynthParameters.default
    voices := List.replicate MAX_VOICES (Voice.new ops)
    filter := Filter.new 44100
    note_to_voice := fun _ => none }

/-- `BasicSynth::note_on`: retrigger handling, first-free-voice scan, and
unconditional stealing of voice 0. -/
def note_on (ops : Ops F) (s : BasicSynth F) (note : ℕ) (velocity : F) : BasicSynth F :=
  let s :=
    match s.note_to_voice note with
    | some voice_idx =>
        { s with
          voices := updateAt s.voices voice_idx Voice.stop
          note_to_voice := fun k => if k = note then none else s.note_to_voice k }
    | none => s
  match firstIdx (fun v => !Voice.is_active v) s.voices with
  | some i =>
      { s with
        voices := updateAt s.voices i (fun v => v.start ops note velocity)
        note_to_voice := fun k => if k = note then some i else s.note_to_voice k }
  | none =>
      if !s.voices.isEmpty then
        { s with
          voices := updateAt s.voices 0 (fun v => v.start ops note velocity)
          note_to_voice := fun k => if k = note then some 0 else s.note_to_voice k }
      else s

/-- `BasicSynth::note_off` (a no-op for unmapped notes). -/
def note_off (s : BasicSynth F) (note : ℕ) : BasicSynth F :=
  match s.note_to_voice note with
  | some voice_idx =>
      { s with
        voices := updateAt s.voices voice_idx Voice.stop
        note_to_voice := fun k => if k = note then none else s.note_to_voice k }
  | none => s

/-- `BasicSynth::process_midi_event` for a 3-byte channel-voice message
`[m0, m1, m2]` (bytes < 256; `m0 & 0xF0` is `16 * (m0 / 16)`). -/
def process_midi_event (ops : Ops F) (s : BasicSynth F) (m0 m1 m2 : ℕ) : BasicSynth F :=
  let status := 16 * (m0 / 16)
  if status = 0x90 then
    let note := m1
    let velocity : F := (m2 : F) / 127
    if velocity > 0 then note_on ops s note velocity else note_off s note
  else if status = 0x80 then
    note_off s m1
  else if status = 0xB0 then
    let controller := m1
    let value : F := (m2 : F) / 127
    if controller = 1 then
      { s with
        voices := s.voices.map (fun v => if Voice.is_active v then v.set_modulation value else v) }
    else s
  else if status = 0xE0 then
    let normalized_bend : F := (((m2 <<< 7) ||| m1 : ℕ) : F) / 8192 - 1
    { s with
      voices := s.voices.map (fun v =>
        if Voice.is_active v then v.set_pitch_bend ops normalized_bend else v) }
  else s

/-- The `for voice in &mut self.voices { if voice.is_active() { mix += ... } }`
loop of `Plugin::process`: sums the active voices and updates each of them. -/
def render_voices (ops : Ops F) (params : SynthParameters F) :
    List (Voice F) → F × List (Voice F)
  | [] => (0, [])
  | v :: vs =>
      let mv := if Voice.is_active v then v.next_sample ops params else (0, v)
      let rest := render_voices ops params vs
      (mv.1 + rest.1, mv.2 :: rest.2)

/-- The per-block parameter commit at the top of `Plugin::process`: filter
cutoff (quadratically scaled), resonance (scaled by 0.99) and type. -/
def update_block_params (s : BasicSynth F) : BasicSynth F :=
  let cutoff := s.params.get_parameter .FilterCutoff
  let resonance := s.params.get_parameter .FilterResonance
  let filter_type :=
    if s.params.get_parameter .FilterType * 3 < 1 then FilterType.LowPass
    else if s.params.get_parameter .FilterType * 3 < 2 then .HighPass
    else if s.params.get_parameter .FilterType * 3 < 3 then .BandPass
    else .LowPass
  { s with filter := ((s.filter.set_cutoff (cutoff * cutoff * 20000)).set_resonance
      (resonance * (99/100))).set_type filter_type }

/-- One iteration of the per-sample loop of `Plugin::process`: advance the
global time (wrapped at 1000 s), sum the active voices, apply master gain
and the filter; returns the sample written to every output channel. -/
def process_sample (ops : Ops F) (s : BasicSynth F) : F × BasicSynth F :=
  let time := s.params.time + 1 / s.sample_rate
  let time := if time > 1000 then time - 1000 else time
  let params := { s.params with time := time }
  let mv := render_voices ops params s.voices
  let gain := params.get_parameter .MasterGain
  let mix := mv.1 * gain
  let ff := s.filter.process mix
  (ff.1, { s with params := params, voices := mv.2, filter := ff.2 })

end BasicSynth

/-! ## Reachable synthesizer states and the note-map invariant -/

/-- Synthesizer states reachable from the freshly constructed pool by any
sequence of note events, raw MIDI messages, block-boundary parameter
commits and per-sample rendering. -/
inductive Reachable (ops : Ops F) : BasicSynth F → Prop where
  | new : Reachable ops (BasicSynth.new ops)
  | note_on (s : BasicSynth F) (note : ℕ) (velocity : F) :
      Reachable ops s → Reachable ops (s.note_on ops note velocity)
  | note_off (s : BasicSynth F) (note : ℕ) :
      Reachable ops s → Reachable ops (s.note_off note)
  | midi (s : BasicSynth F) (m0 m1 m2 : ℕ) :
      Reachable ops s → Reachable ops (s.process_midi_event ops m0 m1 m2)
  | block (s : BasicSynth F) :
      Reachable ops s → Reachable ops s.update_block_params
  | sample (s : BasicSynth F) :
      Reachable ops s → Reachable ops (s.process_sample ops).2

/-- Whether the voice at index `i` reports active (false out of bounds). -/
def voiceActiveAt (s : BasicSynth F) (i : ℕ) : Bool :=
  ((s.voices.get? i).map (fun v => Voice.is_active v)).getD false

/-- The §3 invariant: every entry of the note→voice map references a voice
that reports active. -/
def mapInvariant (s : BasicSynth F) : Prop :=
  ∀ note i, s.note_to_voice note = some i → voiceActiveAt s i = true

/-- Whether the voice at index `i` is active and currently bound to `note`. -/
def voiceHolds (s : BasicSynth F) (i : ℕ) (note : ℕ) : Bool :=
  match s.voices.get? i with
  | some v => Voice.is_active v && v.note == note
  | none => false

/-- Whether an (optional) voice is sounding `note` outside its release
tail: active, bound to `note`, and in an Attack/Decay/Sustain envelope
state. -/
def soundsNote (o : Option (Voice F)) (note : ℕ) : Bool :=
  match o with
  | some v =>
      Voice.is_active v && v.note == note
        && !(v.envelope.state == EnvelopeState.Release)
        && !(v.envelope.state == EnvelopeState.Idle)
  | none => false

/-- Whether the voice at index `i` is sounding `note` outside its release
tail. -/
def soundingAt (s : BasicSynth F) (i : ℕ) (note : ℕ) : Bool :=
  soundsNote (s.voices.get? i) note

/-- The trace exhibiting a stale map entry: 17 distinct note-ons (the 17th
steals voice 0 but leaves the entry `0 ↦ 0` behind), a note-off of note 0
(which releases voice 0, the voice that was re-assigned to note 16), and
one rendered sample (the release decays to Idle). -/
def staleTrace (ops : Ops ℚ) : BasicSynth ℚ :=
  let s := (List.range 17).foldl (fun s n => s.note_on ops n (1/2)) (BasicSynth.new ops)
  let s := s.note_off 0
  (s.process_sample ops).2


/-- The envelope state of the voice at index `i`, if any. -/
def envStateAt (s : BasicSynth F) (i : ℕ) : Option EnvelopeState :=
  (s.voices.get? i).map (fun v => v.envelope.state)

/-- `n` successive `next_sample` calls, keeping only the oscillator. -/
def nextIter (ops : Ops F) (n : ℕ) (o : Oscillator F) : Oscillator F :=
  (fun o => (Oscillator.next_sample ops o).2)^[n] o

/-- The waveform value an oscillator produces for its current (pre-advance)
phase: the per-type sample expression of `Oscillator::next_sample`. -/
def waveValue (ops : Ops F) (o : Oscillator F) : F :=
  match o.osc_type with
  | .Sine => ops.sin (o.phase * 2 * ops.pi)
  | .Square => Oscillator.bl_square o
  | .Saw => Oscillator.bl_saw o
  | .Triangle => Oscillator.bl_triangle o
  | .Wavetable => o.wavetable.get_sample o.phase
  | .FM => (Oscillator.process_fm ops o).1

/-- A fresh voice started on `note`: the shape every pool slot takes after
its first `note_on` assignment. -/
def startedVoice (ops : Ops F) (note : ℕ) (velocity : F) : Voice F :=
  (Voice.new ops).start ops note velocity

/-- The pool state after the notes `ns` (distinct, at most 16) have been
allocated in order on a fresh synth: the first `ns.length` voices are
started, the rest are fresh, and the map sends each note to its index. -/
def poolState (ops : Ops F) (ns : List ℕ) (velocity : F) : BasicSynth F :=
  { BasicSynth.new ops with
    voices := ns.map (fun n => startedVoice ops n velocity)
      ++ List.replicate (MAX_VOICES - ns.length) (Voice.new ops)
    note_to_voice := fun m => firstIdx (fun n => n == m) ns }


/-! ## Basic lemmas -/

theorem fmax_eq_max (a b : F) : fmax a b = max a b := by
  rw [fmax, max_def]
  rcases lt_trichotomy a b with h | h | h
  · rw [if_pos h, if_pos h.le]
  · subst h; simp
  · rw [if_neg (asymm h), if_neg (not_le.mpr h)]

theorem fmin_eq_min (a b : F) : fmin a b = min a b := by
  rw [fmin, min_def]
  rcases lt_trichotomy a b with h | h | h
  · rw [if_neg (asymm h), if_pos h.le]
  · subst h; simp
  · rw [if_pos h, if_neg (not_le.mpr h)]

/-! ## C9: trigger is a pure state change -/

/-- C9: for every envelope in state Idle, Release or Sustain, `trigger()`
moves the state to Attack and leaves the current value — and every other
field — unchanged. -/
theorem trigger_sets_attack_only (e : Envelope F)
    (h : e.state = EnvelopeState.Idle ∨ e.state = EnvelopeState.Release ∨
      e.state = EnvelopeState.Sustain) :
    e.trigger.state = EnvelopeState.Attack ∧ e.trigger.value = e.value ∧
      e.trigger.sample_rate = e.sample_rate ∧ e.trigger.attack = e.attack ∧
      e.trigger.decay = e.decay ∧ e.trigger.sustain = e.sustain ∧
      e.trigger.releaseSecs = e.releaseSecs ∧ e.trigger.attack_rate = e.attack_rate ∧
      e.trigger.decay_rate = e.decay_rate ∧ e.trigger.release_rate = e.release_rate ∧
      e.trigger.release_level = e.release_level := by
  simp [Envelope.trigger]

/-- Witness for C9 at the freshly constructed envelope (state Idle). -/
theorem trigger_sets_attack_only_witness :
    (Envelope.new (44100:ℚ)).state = EnvelopeState.Idle ∧
      ((Envelope.new (44100:ℚ)).trigger.state = EnvelopeState.Attack ∧
        (Envelope.new (44100:ℚ)).trigger.value = (Envelope.new (44100:ℚ)).value ∧
        (Envelope.new (44100:ℚ)).trigger.sample_rate = (Envelope.new (44100:ℚ)).sample_rate ∧
        (Envelope.new (44100:ℚ)).trigger.attack = (Envelope.new (44100:ℚ)).attack ∧
        (Envelope.new (44100:ℚ)).trigger.decay = (Envelope.new (44100:ℚ)).decay ∧
        (Envelope.new (44100:ℚ)).trigger.sustain = (Envelope.new (44100:ℚ)).sustain ∧
        (Envelope.new (44100:ℚ)).trigger.releaseSecs = (Envelope.new (44100:ℚ)).releaseSecs ∧
        (Envelope.new (44100:ℚ)).trigger.attack_rate = (Envelope.new (44100:ℚ)).attack_rate ∧
        (Envelope.new (44100:ℚ)).trigger.decay_rate = (Envelope.new (44100:ℚ)).decay_rate ∧
        (Envelope.new (44100:ℚ)).trigger.release_rate = (Envelope.new (44100:ℚ)).release_rate ∧
        (Envelope.new (44100:ℚ)).trigger.release_level = (Envelope.new (44100:ℚ)).release_level) :=
  ⟨rfl, trigger_sets_attack_only _ (Or.inl rfl)⟩

/-! ## C10: set_sustain clamps but does not recompute rates -/

/-- C10: `set_sustain` clamps the level into `[0,1]` and stores it, while
`attack_rate`, `decay_rate` and `release_rate` (and every other field) keep
the values derived from the sustain current at the last rate
recalculation; a subsequent recalculating setter (here `set_release`) is
what folds the new sustain into the rates. -/
theorem set_sustain_clamps_without_recalc (e : Envelope F) (level seconds : F) :
    (e.set_sustain level).sustain = min (max level 0) 1 ∧
      (e.set_sustain level).attack_rate = e.attack_rate ∧
      (e.set_sustain level).decay_rate = e.decay_rate ∧
      (e.set_sustain level).release_rate = e.release_rate ∧
      (e.set_sustain level).state = e.state ∧
      (e.set_sustain level).value = e.value ∧
      (e.set_sustain level).sample_rate = e.sample_rate ∧
      (e.set_sustain level).attack = e.attack ∧
      (e.set_sustain level).decay = e.decay ∧
      (e.set_sustain level).releaseSecs = e.releaseSecs ∧
      (e.set_sustain level).release_level = e.release_level ∧
      ((e.set_sustain level).set_release seconds).release_rate
        = min (max level 0) 1 / (max seconds (1/1000) * e.sample_rate) := by
  simp [Envelope.set_sustain, Envelope.set_release, Envelope.recalculate_rates,
    fmax_eq_max, fmin_eq_min, min_comm, max_comm]

/-! ## C7: the state-variable filter equations -/

/-- C7: `Filter::process` realizes the state-variable equations
`hp = q·input − q·x1 − y1`, `bp = hp + y1`, `lp = bp + y2` with
`f = 2·cutoff/sample_rate` and `q = 1 − resonance`, updates
`y1 += bp·f`, `y2 += lp·f`, `x1 = input`, and returns `lp`, `hp` or `bp`
according to the filter type. -/
theorem filter_process_state_variable (f : Filter F) (input : F) :
    (f.process input).1 =
      (match f.filter_type with
       | FilterType.LowPass =>
           ((1 - f.resonance) * input - (1 - f.resonance) * f.x1 - f.y1) + f.y1 + f.y2
       | FilterType.HighPass =>
           (1 - f.resonance) * input - (1 - f.resonance) * f.x1 - f.y1
       | FilterType.BandPass =>
           ((1 - f.resonance) * input - (1 - f.resonance) * f.x1 - f.y1) + f.y1) ∧
      (f.process input).2 =
        { f with
          y1 := f.y1 + (((1 - f.resonance) * input - (1 - f.resonance) * f.x1 - f.y1) + f.y1)
            * (2 * f.cutoff / f.sample_rate)
          y2 := f.y2 + ((((1 - f.resonance) * input - (1 - f.resonance) * f.x1 - f.y1) + f.y1)
            + f.y2) * (2 * f.cutoff / f.sample_rate)
          x1 := input } := by
  cases f with
  | mk sample_rate cutoff resonance filter_type x1 x2 y1 y2 =>
      cases filter_type <;>
        refine ⟨by simp [Filter.process], ?_⟩ <;>
          · simp only [Filter.process, Filter.mk.injEq, eq_self_iff_true, true_and, and_true]
            constructor <;> ring

/-! ## C8: Note On with velocity 0 equals Note Off -/

/-- C8: a Note On status byte (high nibble 9) with velocity byte 0 drives
the synthesizer to exactly the state any Note Off message (high nibble 8)
for the same note reaches, whatever the note-off velocity byte. -/
theorem note_on_velocity_zero_is_note_off (ops : Ops F) (s : BasicSynth F)
    (m0 m0' note vel : ℕ) (h9 : m0 / 16 = 9) (h8 : m0' / 16 = 8) :
    s.process_midi_event ops m0 note 0 = s.process_midi_event ops m0' note vel := by
  rw [BasicSynth.process_midi_event, BasicSynth.process_midi_event, h9, h8]
  norm_num

/-- Witness for C8: `0x90 note 0` and `0x80 note 64` agree on a fresh
synthesizer. -/
theorem note_on_velocity_zero_is_note_off_witness :
    (0x90 / 16 = 9 ∧ 0x80 / 16 = 8) ∧
      (BasicSynth.new ratOps).process_midi_event ratOps 0x90 60 0
        = (BasicSynth.new ratOps).process_midi_event ratOps 0x80 60 64 :=
  ⟨⟨by norm_num, by norm_num⟩,
    note_on_velocity_zero_is_note_off ratOps _ 0x90 0x80 60 64 (by norm_num) (by norm_num)⟩


/-! ## C1: release duration -/

theorem stepN_succ_apply (n : ℕ) (e : Envelope F) :
    Envelope.stepN (n + 1) e = Envelope.stepN n (Envelope.next_value e).2 := by
  rw [Envelope.stepN, Envelope.stepN, Function.iterate_succ_apply]

/-- An envelope that has reached Idle with value 0 stays there. -/
theorem stepN_idle_fix (e : Envelope F) (hs : e.state = EnvelopeState.Idle)
    (hv : e.value = 0) (n : ℕ) : Envelope.stepN n e = e := by
  induction n with
  | zero => rfl
  | succ n ih =>
      have h1 : (Envelope.next_value e).2 = e := by
        cases e
        simp_all [Envelope.next_value]
      rw [stepN_succ_apply, h1, ih]

/-- In Release, once `n` steps of size `release_rate > 0` cover the current
value, the envelope is Idle with value 0. -/
theorem release_stepN (e : Envelope F) (hs : e.state = EnvelopeState.Release)
    (hr : 0 < e.release_rate) (n : ℕ) (h1 : 1 ≤ n)
    (hn : e.value ≤ (n : F) * e.release_rate) :
    (Envelope.stepN n e).state = EnvelopeState.Idle ∧
      (Envelope.stepN n e).value = 0 := by
  induction n generalizing e with
  | zero => omega
  | succ n ih =>
      by_cases hc : e.value - e.release_rate ≤ 0
      · have h2 : (Envelope.next_value e).2 =
            { e with value := 0, state := EnvelopeState.Idle } := by
          simp [Envelope.next_value, hs, hc]
        rw [stepN_succ_apply, h2, stepN_idle_fix _ rfl rfl]
        exact ⟨rfl, rfl⟩
      · push_neg at hc
        have hn1 : 1 ≤ n := by
          rcases Nat.eq_zero_or_pos n with h0 | h0
          · exfalso
            subst h0
            push_cast at hn
            linarith
          · exact h0
        have h2 : (Envelope.next_value e).2 =
            { e with value := e.value - e.release_rate } := by
          simp [Envelope.next_value, hs, not_le.mpr hc]
        rw [stepN_succ_apply, h2]
        refine ih { e with value := e.value - e.release_rate } hs hr hn1 ?_
        show e.value - e.release_rate ≤ (n : F) * e.release_rate
        push_cast at hn
        linarith

/-- While the steps taken do not yet cover the value, Release is still
counting down linearly. -/
theorem release_stepN_live (e : Envelope F) (hs : e.state = EnvelopeState.Release)
    (hr : 0 ≤ e.release_rate) (n : ℕ) (hv : (n : F) * e.release_rate < e.value) :
    (Envelope.stepN n e).state = EnvelopeState.Release ∧
      (Envelope.stepN n e).value = e.value - (n : F) * e.release_rate := by
  induction n generalizing e with
  | zero =>
      refine ⟨by simpa [Envelope.stepN] using hs, ?_⟩
      simp [Envelope.stepN]
  | succ n ih =>
      have hcast : ((n : F) + 1) * e.release_rate < e.value := by
        push_cast at hv
        linarith
      have hc : ¬ (e.value - e.release_rate ≤ 0) := by
        push_neg
        nlinarith [mul_nonneg (Nat.cast_nonneg (α := F) n) hr]
      have h2 : (Envelope.next_value e).2 =
          { e with value := e.value - e.release_rate } := by
        simp [Envelope.next_value, hs, hc]
      rw [stepN_succ_apply, h2]
      have hv' : (n : F) * ({ e with value := e.value - e.release_rate } :
          Envelope F).release_rate <
          ({ e with value := e.value - e.release_rate } : Envelope F).value := by
        show (n : F) * e.release_rate < e.value - e.release_rate
        linarith
      obtain ⟨h3, h4⟩ := ih { e with value := e.value - e.release_rate } hs hr hv'
      refine ⟨h3, ?_⟩
      rw [h4]
      show e.value - e.release_rate - (n : F) *  e.release_rate
        = e.value - ((n + 1 : ℕ) : F) * e.release_rate
      push_cast
      ring

/-- C1 counterexample: an envelope with sample rate 10, sustain 1/2 and
release time 1 s (so `release_seconds·sample_rate = 10`), released right
after its attack peak at value 1, is still in Release with value 9/20
after 11 = `release_seconds·sample_rate + 1` calls: the release budget
holds only from values at most `sustain`, not "regardless of the value the
envelope held". -/
theorem release_budget_counterexample :
    let e0 : Envelope ℚ := (((Envelope.new 10).set_sustain (1/2)).set_release 1).trigger
    let e : Envelope ℚ := ((Envelope.next_value e0).2).release
    e.releaseSecs * e.sample_rate = 10 ∧
      (Envelope.stepN 11 e).state ≠ EnvelopeState.Idle ∧
      (Envelope.stepN 11 e).value = 9/20 := by
  intro e0 e
  have he : e = (⟨10, .Release, 1, 1/100, 1/10, 1/2, 1, 10, 1/2, 1/20, 1⟩ : Envelope ℚ) := by
    show ((Envelope.next_value
        ((((Envelope.new (10:ℚ)).set_sustain (1/2)).set_release 1).trigger)).2).release = _
    norm_num [Envelope.new, Envelope.set_sustain, Envelope.set_release, Envelope.trigger,
      Envelope.release, Envelope.next_value, Envelope.recalculate_rates, fmax, fmin,
      Envelope.mk.injEq]
    decide
  rw [he]
  obtain ⟨h1, h2⟩ := release_stepN_live
    (e := (⟨10, .Release, 1, 1/100, 1/10, 1/2, 1, 10, 1/2, 1/20, 1⟩ : Envelope ℚ))
    rfl (by norm_num) 11 (by norm_num)
  refine ⟨by norm_num, ?_, ?_⟩
  · rw [h1]
    simp
  · rw [h2]
    norm_num

/-- C1 (amended): after `release()`, with the rates consistent
(`release_rate = sustain/(release_seconds·sample_rate)`, positive sustain)
and the value at release at most `sustain` — as it is when released from
Sustain or Decay below the sustain level — `next_value()` drives the
envelope to value 0 and state Idle within `⌈release_seconds·sample_rate⌉`
calls.  From a larger value `v` the envelope needs about
`v/sustain · release_seconds·sample_rate` calls, which exceeds the
claimed budget (see the counterexample). -/
theorem release_reaches_idle_within_budget (e : Envelope F)
    (hs : e.state = EnvelopeState.Release)
    (hrate : e.release_rate = e.sustain / (e.releaseSecs * e.sample_rate))
    (hsus : 0 < e.sustain) (hrs : 0 < e.releaseSecs * e.sample_rate)
    (hv : e.value ≤ e.sustain) :
    (Envelope.stepN ⌈e.releaseSecs * e.sample_rate⌉₊ e).state = EnvelopeState.Idle ∧
      (Envelope.stepN ⌈e.releaseSecs * e.sample_rate⌉₊ e).value = 0 := by
  have hr : 0 < e.release_rate := by
    rw [hrate]
    exact div_pos hsus hrs
  apply release_stepN e hs hr
  · exact Nat.ceil_pos.mpr hrs
  · calc e.value ≤ e.sustain := hv
      _ = (e.releaseSecs * e.sample_rate) * e.release_rate := by
            rw [hrate]
            field_simp
      _ ≤ (⌈e.releaseSecs * e.sample_rate⌉₊ : F) * e.release_rate :=
            mul_le_mul_of_nonneg_right (Nat.le_ceil _) hr.le

/-- Witness for C1 (amended): a released envelope at value 1/2 = sustain,
release 1 s at sample rate 10, reaches Idle/0 within ⌈10⌉ = 10 calls. -/
theorem release_reaches_idle_within_budget_witness :
    let e : Envelope ℚ := ⟨10, .Release, 1/2, 1/100, 1/10, 1/2, 1, 10, 1/2, 1/20, 1/2⟩
    (e.state = EnvelopeState.Release ∧
        e.release_rate = e.sustain / (e.releaseSecs * e.sample_rate) ∧
        0 < e.sustain ∧ 0 < e.releaseSecs * e.sample_rate ∧ e.value ≤ e.sustain) ∧
      ((Envelope.stepN ⌈e.releaseSecs * e.sample_rate⌉₊ e).state = EnvelopeState.Idle ∧
        (Envelope.stepN ⌈e.releaseSecs * e.sample_rate⌉₊ e).value = 0) := by
  intro e
  exact ⟨⟨rfl, by norm_num, by norm_num, by norm_num, by norm_num⟩,
    release_reaches_idle_within_budget e rfl (by norm_num) (by norm_num) (by norm_num)
      (by norm_num)⟩


/-! ## Oscillator lemmas -/

theorem set_type_frequency (ops : Ops F) (o : Oscillator F) (t : OscillatorType) :
    (o.set_type ops t).frequency = o.frequency := by
  rw [Oscillator.set_type]
  split <;> simp [Oscillator.generate_complex_wavetable]

theorem set_fm_params_frequency (o : Oscillator F) (a b c : F) :
    (o.set_fm_params a b c).frequency = o.frequency := rfl

theorem set_frequency_frequency (o : Oscillator F) (f : F) :
    (o.set_frequency f).frequency = fmin (fmax f (1/10)) 20000 := rfl

theorem next_sample_frequency (ops : Ops F) (o : Oscillator F) :
    (o.next_sample ops).2.frequency = o.frequency := by
  cases h : o.osc_type <;> simp [Oscillator.next_sample, h, Oscillator.process_fm]

theorem next_sample_phase_bounds (ops : Ops F) (o : Oscillator F) :
    0 ≤ (o.next_sample ops).2.phase ∧ (o.next_sample ops).2.phase < 1 := by
  cases h : o.osc_type <;>
    simp [Oscillator.next_sample, h, Oscillator.process_fm, Int.fract_nonneg,
      Int.fract_lt_one]

/-! ## C6: phase invariant and per-call phase advance -/

/-- C6 (amended): for every oscillator with positive frequency at most
`sample_rate/2` and a well-formed phase, the phase stays in `[0,1)` after
any number of `next_sample()` calls; each call returns the waveform value
computed from the pre-advance phase; a non-FM call advances the phase by
`frequency/sample_rate` wrapped into `[0,1)`, while an FM call advances
the carrier phase by `frequency·carrier_ratio/sample_rate` (so the claimed
universal `frequency/sample_rate` advance fails exactly for FM, see the
counterexample). -/
theorem oscillator_phase_and_advance (ops : Ops F) (o : Oscillator F)
    (hf : 0 < o.frequency) (hf2 : o.frequency ≤ o.sample_rate / 2)
    (hp0 : 0 ≤ o.phase) (hp1 : o.phase < 1) :
    (∀ n : ℕ, 0 ≤ (nextIter ops n o).phase ∧ (nextIter ops n o).phase < 1) ∧
      ((o.next_sample ops).1 = waveValue ops o) ∧
      (o.osc_type ≠ OscillatorType.FM →
        (o.next_sample ops).2 =
          { o with phase := Int.fract (o.phase + o.frequency / o.sample_rate) }) ∧
      (o.osc_type = OscillatorType.FM →
        (o.next_sample ops).2.phase =
          Int.fract (o.phase + o.frequency * o.fm_params.carrier_ratio / o.sample_rate)) := by
  refine ⟨?_, ?_, ?_, ?_⟩
  · intro n
    induction n with
    | zero => exact ⟨hp0, hp1⟩
    | succ n ih =>
        rw [nextIter, Function.iterate_succ_apply', ← nextIter]
        exact next_sample_phase_bounds ops _
  · cases h : o.osc_type <;> simp [Oscillator.next_sample, waveValue, h]
  · intro hne
    cases h : o.osc_type <;> simp_all [Oscillator.next_sample, h]
  · intro hfm
    simp [Oscillator.next_sample, hfm, Oscillator.process_fm]

/-- Witness for C6 at a freshly constructed (sine, 440 Hz, 44.1 kHz)
oscillator. -/
theorem oscillator_phase_and_advance_witness :
    (0 < (Oscillator.new ratOps 44100).frequency ∧
        (Oscillator.new ratOps 44100).frequency ≤ (Oscillator.new ratOps 44100).sample_rate / 2 ∧
        0 ≤ (Oscillator.new ratOps 44100).phase ∧ (Oscillator.new ratOps 44100).phase < 1) ∧
      ((∀ n : ℕ, 0 ≤ (nextIter ratOps n (Oscillator.new ratOps 44100)).phase ∧
          (nextIter ratOps n (Oscillator.new ratOps 44100)).phase < 1) ∧
        (((Oscillator.new ratOps 44100).next_sample ratOps).1 =
          waveValue ratOps (Oscillator.new ratOps 44100)) ∧
        ((Oscillator.new ratOps 44100).osc_type ≠ OscillatorType.FM →
          ((Oscillator.new ratOps 44100).next_sample ratOps).2 =
            { Oscillator.new ratOps 44100 with
              phase := Int.fract ((Oscillator.new ratOps 44100).phase +
                (Oscillator.new ratOps 44100).frequency /
                  (Oscillator.new ratOps 44100).sample_rate) }) ∧
        ((Oscillator.new ratOps 44100).osc_type = OscillatorType.FM →
          ((Oscillator.new ratOps 44100).next_sample ratOps).2.phase =
            Int.fract ((Oscillator.new ratOps 44100).phase +
              (Oscillator.new ratOps 44100).frequency *
                (Oscillator.new ratOps 44100).fm_params.carrier_ratio /
                (Oscillator.new ratOps 44100).sample_rate))) := by
  refine ⟨⟨?_, ?_, ?_, ?_⟩, ?_⟩
  · norm_num [Oscillator.new]
  · norm_num [Oscillator.new]
  · norm_num [Oscillator.new]
  · norm_num [Oscillator.new]
  · exact oscillator_phase_and_advance ratOps _ (by norm_num [Oscillator.new])
      (by norm_num [Oscillator.new]) (by norm_num [Oscillator.new])
      (by norm_num [Oscillator.new])

/-- C6 counterexample: an FM oscillator with carrier ratio 2 (as installed
by `set_fm_params`) advances its phase by
`frequency·carrier_ratio/sample_rate = 880/44100`, not by the claimed
`frequency/sample_rate = 440/44100`, already on the first call under the
real interpretation of the primitives. -/
theorem fm_phase_advance_counterexample :
    let rops : Ops ℝ := ⟨Real.sin, fun x => (2:ℝ) ^ x, Real.pi⟩
    let o : Oscillator ℝ :=
      ((Oscillator.new rops 44100).set_type rops OscillatorType.FM).set_fm_params 2 2 3
    (o.next_sample rops).2.phase ≠ Int.fract (o.phase + o.frequency / o.sample_rate) := by
  intro rops o
  have htype : o.osc_type = OscillatorType.FM := by
    show ((((Oscillator.new rops 44100).set_type rops OscillatorType.FM).set_fm_params
      2 2 3)).osc_type = OscillatorType.FM
    simp [Oscillator.set_type, Oscillator.set_fm_params]
  have hfreq : o.frequency = 440 := by
    show ((((Oscillator.new rops 44100).set_type rops OscillatorType.FM).set_fm_params
      2 2 3)).frequency = 440
    rw [set_fm_params_frequency, set_type_frequency]
    rfl
  have hphase : o.phase = 0 := by
    show ((((Oscillator.new rops 44100).set_type rops OscillatorType.FM).set_fm_params
      2 2 3)).phase = 0
    simp [Oscillator.set_fm_params, Oscillator.set_type, Oscillator.new]
  have hsr : o.sample_rate = 44100 := by
    show ((((Oscillator.new rops 44100).set_type rops OscillatorType.FM).set_fm_params
      2 2 3)).sample_rate = 44100
    simp [Oscillator.set_fm_params, Oscillator.set_type, Oscillator.new]
  have hcr : o.fm_params.carrier_ratio = 2 := by
    show ((((Oscillator.new rops 44100).set_type rops OscillatorType.FM).set_fm_params
      2 2 3)).fm_params.carrier_ratio = 2
    simp [Oscillator.set_fm_params]
  have hL : (o.next_sample rops).2.phase
      = Int.fract (o.phase + o.frequency * o.fm_params.carrier_ratio / o.sample_rate) := by
    simp [Oscillator.next_sample, htype, Oscillator.process_fm]
  rw [hL, hphase, hfreq, hsr, hcr, zero_add, zero_add,
    Int.fract_eq_self.mpr ⟨by norm_num, by norm_num⟩,
    Int.fract_eq_self.mpr ⟨by norm_num, by norm_num⟩]
  norm_num


/-! ## C3: vibrato -/

/-- C3 counterexample: under the real primitives the multiplier the code
applies, `1 + modulation·0.05·sin(π·5·t)` (a 2.5 Hz LFO), differs from the
claimed `1 + modulation·0.05·sin(2π·5·t)` (a 5 Hz LFO): at modulation 1
and global time 0.1 s the code multiplies by 1 + 0.05·sin(π/2) = 1.05
while the claim prescribes 1 + 0.05·sin(π) = 1. -/
theorem vibrato_factor_counterexample :
    vibrato_factor (⟨Real.sin, fun x => (2:ℝ) ^ x, Real.pi⟩ : Ops ℝ) 1 (1/10) ≠
      vibrato_factor_spec (⟨Real.sin, fun x => (2:ℝ) ^ x, Real.pi⟩ : Ops ℝ) 1 (1/10) := by
  have h1 : Real.pi * 5 * (1/10 : ℝ) = Real.pi / 2 := by ring
  have h2 : 2 * Real.pi * 5 * (1/10 : ℝ) = Real.pi := by ring
  rw [vibrato_factor, vibrato_factor_spec]
  simp only [h1, h2, Real.sin_pi_div_two, Real.sin_pi]
  norm_num

/-- C3 (amended): for an active voice with positive modulation and a
stored oscillator frequency inside the clamp range `[0.1, 20000]`, one
`next_sample` call multiplies the frequency by
`vibrato_factor = 1 + modulation·0.05·sin(π·5·global_time)` for exactly
one sample and then restores the base frequency, so the stored frequency
after the call equals the stored frequency before it (no drift). -/
theorem vibrato_restores_frequency (ops : Ops F) (params : SynthParameters F)
    (v : Voice F) (hmod : 0 < v.modulation) (hact : Voice.is_active v = true)
    (hlo : 1/10 ≤ v.oscillator.frequency) (hhi : v.oscillator.frequency ≤ 20000) :
    ((v.next_sample ops params).2).oscillator.frequency = v.oscillator.frequency ∧
      vibrato_factor ops v.modulation params.time
        = 1 + ops.sin (ops.pi * 5 * params.time) * (v.modulation * (5/100)) := by
  refine ⟨?_, by rw [vibrato_factor]⟩
  rw [Voice.next_sample, if_neg (by simp [hact])]
  simp only [Oscillator.get_frequency]
  split_ifs <;>
    first
      | exact absurd ‹_ = OscillatorType.FM› (by decide)
      | exact absurd hmod (by assumption)
      | (simp only [set_frequency_frequency, next_sample_frequency,
          set_type_frequency, set_fm_params_frequency, Oscillator.get_frequency,
          fmax_eq_max, fmin_eq_min]
         rw [max_eq_left hlo, min_eq_left hhi])


/-- Witness for C3: a voice started on note 60 with the modulation wheel at
1, under the dummy rational primitives and the default parameter set. -/
theorem vibrato_restores_frequency_witness :
    let v : Voice ℚ := ((Voice.new ratOps).start ratOps 60 (1/2)).set_modulation 1
    (0 < v.modulation ∧ Voice.is_active v = true ∧
        1/10 ≤ v.oscillator.frequency ∧ v.oscillator.frequency ≤ 20000) ∧
      (((v.next_sample ratOps SynthParameters.default).2).oscillator.frequency
          = v.oscillator.frequency ∧
        vibrato_factor ratOps v.modulation (SynthParameters.default (F := ℚ)).time
          = 1 + ratOps.sin (ratOps.pi * 5 * (SynthParameters.default (F := ℚ)).time)
            * (v.modulation * (5/100))) := by
  intro v
  have hfreq : v.oscillator.frequency = 440 := by
    show ((((Voice.new ratOps).start ratOps 60 (1/2)).set_modulation 1)).oscillator.frequency
      = 440
    norm_num [Voice.new, Voice.start, Voice.update_frequency, Voice.set_modulation,
      Oscillator.new, Oscillator.set_frequency, ratOps, fmax, fmin]
  have h1 : 0 < v.modulation := by
    show (0:ℚ) < (((Voice.new ratOps).start ratOps 60 (1/2)).set_modulation 1).modulation
    norm_num [Voice.new, Voice.start, Voice.update_frequency, Voice.set_modulation]
  have h2 : Voice.is_active v = true := by
    show Voice.is_active (((Voice.new ratOps).start ratOps 60 (1/2)).set_modulation 1) = true
    decide
  have h3 : 1/10 ≤ v.oscillator.frequency := by
    rw [hfreq]
    norm_num
  have h4 : v.oscillator.frequency ≤ 20000 := by
    rw [hfreq]
    norm_num
  exact ⟨⟨h1, h2, h3, h4⟩,
    vibrato_restores_frequency ratOps SynthParameters.default v h1 h2 h3 h4⟩


/-! ## List-scan and voice lemmas for the pool -/

theorem firstIdx_nil {α : Type} (p : α → Bool) : firstIdx p ([] : List α) = none := rfl

theorem firstIdx_cons_pos {α : Type} (p : α → Bool) (a : α) (l : List α)
    (h : p a = true) : firstIdx p (a :: l) = some 0 := by
  simp [firstIdx, h]

theorem firstIdx_cons_neg {α : Type} (p : α → Bool) (a : α) (l : List α)
    (h : p a = false) : firstIdx p (a :: l) = (firstIdx p l).map (· + 1) := by
  simp [firstIdx, h]

theorem firstIdx_some {α : Type} (p : α → Bool) (l : List α) (i : ℕ)
    (h : firstIdx p l = some i) :
    i < l.length ∧ ∃ a, l.get? i = some a ∧ p a = true := by
  induction l generalizing i with
  | nil => simp [firstIdx] at h
  | cons a as ih =>
      by_cases hp : p a = true
      · rw [firstIdx_cons_pos _ _ _ hp] at h
        cases h
        exact ⟨Nat.succ_pos _, a, rfl, hp⟩
      · rw [firstIdx_cons_neg _ _ _ (by simpa using hp)] at h
        rcases Option.map_eq_some'.mp h with ⟨j, hj, rfl⟩
        obtain ⟨hlen, b, hget, hb⟩ := ih j hj
        exact ⟨Nat.succ_lt_succ hlen, b, by simpa using hget, hb⟩

theorem firstIdx_none_of_all {α : Type} (p : α → Bool) (l : List α)
    (h : ∀ a ∈ l, p a = false) : firstIdx p l = none := by
  induction l with
  | nil => rfl
  | cons a as ih =>
      rw [firstIdx_cons_neg _ _ _ (h a (by simp))]
      rw [ih (fun b hb => h b (by simp [hb]))]
      rfl

theorem updateAt_length {α : Type} (l : List α) (i : ℕ) (f : α → α) :
    (updateAt l i f).length = l.length := by
  induction l generalizing i with
  | nil => rfl
  | cons a as ih =>
      cases i with
      | zero => rfl
      | succ i => simp [updateAt, ih]

theorem updateAt_get?_self {α : Type} (l : List α) (i : ℕ) (f : α → α) :
    (updateAt l i f).get? i = (l.get? i).map f := by
  induction l generalizing i with
  | nil => simp [updateAt]
  | cons a as ih =>
      cases i with
      | zero => simp [updateAt]
      | succ i => simpa [updateAt] using ih i

theorem updateAt_get?_ne {α : Type} (l : List α) (i j : ℕ) (f : α → α)
    (h : j ≠ i) : (updateAt l i f).get? j = l.get? j := by
  induction l generalizing i j with
  | nil => rfl
  | cons a as ih =>
      cases i with
      | zero =>
          cases j with
          | zero => exact absurd rfl h
          | succ j => simp [updateAt]
      | succ i =>
          cases j with
          | zero => simp [updateAt]
          | succ j => simpa [updateAt] using ih i j (fun hji => h (by omega))

theorem stop_active (v : Voice F) : (Voice.stop v).active = v.active := by
  rw [Voice.stop]

theorem stop_note (v : Voice F) : (Voice.stop v).note = v.note := by
  rw [Voice.stop]

theorem stop_state_of_ne (v : Voice F) (h : v.envelope.state ≠ EnvelopeState.Idle) :
    (Voice.stop v).envelope.state = EnvelopeState.Release := by
  simp [Voice.stop, Envelope.release, h]

theorem stop_state_or (v : Voice F) :
    (Voice.stop v).envelope.state = EnvelopeState.Release ∨
      (Voice.stop v).envelope.state = EnvelopeState.Idle := by
  rw [Voice.stop]
  simp only [Envelope.release]
  split_ifs with h
  · exact Or.inl rfl
  · exact Or.inr (not_ne_iff.mp h)

theorem is_active_stop_of (v : Voice F) (hA : v.active = true)
    (hS : v.envelope.state ≠ EnvelopeState.Idle) :
    Voice.is_active (Voice.stop v) = true := by
  simp [Voice.stop, Voice.is_active, Envelope.release, hS, hA, Envelope.is_idle]

theorem start_note (ops : Ops F) (v : Voice F) (n : ℕ) (vel : F) :
    (v.start ops n vel).note = n := by
  simp [Voice.start, Voice.update_frequency]

theorem start_active (ops : Ops F) (v : Voice F) (n : ℕ) (vel : F) :
    (v.start ops n vel).active = true := by
  simp [Voice.start, Voice.update_frequency]

theorem start_state (ops : Ops F) (v : Voice F) (n : ℕ) (vel : F) :
    (v.start ops n vel).envelope.state = EnvelopeState.Attack := by
  simp [Voice.start, Voice.update_frequency, Envelope.trigger]

theorem is_active_start (ops : Ops F) (v : Voice F) (n : ℕ) (vel : F) :
    Voice.is_active (v.start ops n vel) = true := by
  simp [Voice.is_active, Envelope.is_idle, start_active, start_state]

theorem is_active_new (ops : Ops F) : Voice.is_active (Voice.new ops) = false := by
  simp [Voice.is_active, Voice.new]


/-! ## C4: retriggering a sounding note -/

/-- C4 (amended): re-issuing note-on for a note that is already sounding
first stops and releases the voice the map holds for it; the released
voice remains active through its release tail, so two voices may
momentarily both report active while holding the note (see the
counterexample) — but at most one voice holds the note outside its
Release/Idle envelope states, namely the voice the retrigger just
started, and when the new assignment lands on a different slot the old
voice is indeed left in Release. -/
theorem retrigger_stops_then_unique (ops : Ops F) (s : BasicSynth F)
    (note : ℕ) (velocity : F) (i : ℕ)
    (hmap : s.note_to_voice note = some i)
    (hact : ∃ w, s.voices.get? i = some w ∧ w.active = true ∧
      w.envelope.state ≠ EnvelopeState.Idle)
    (huni : ∀ j, soundingAt s j note = true → j = i) :
    ∃ k, (s.note_on ops note velocity).note_to_voice note = some k ∧
      soundingAt (s.note_on ops note velocity) k note = true ∧
      (∀ j, soundingAt (s.note_on ops note velocity) j note = true → j = k) ∧
      (k ≠ i → envStateAt (s.note_on ops note velocity) i
        = some EnvelopeState.Release) := by
  obtain ⟨w, hw, hwA, hwS⟩ := hact
  obtain ⟨hi, -⟩ := List.get?_eq_some.mp hw
  have hstop : (updateAt s.voices i Voice.stop).get? i = some (Voice.stop w) := by
    rw [updateAt_get?_self, hw]
    rfl
  have hstop_sound : ∀ j,
      soundsNote ((updateAt s.voices i Voice.stop).get? j) note = false := by
    intro j
    by_cases hji : j = i
    · subst hji
      rw [hstop]
      rcases stop_state_or w with h | h <;> simp [soundsNote, h]
    · rw [updateAt_get?_ne _ _ _ _ hji]
      by_cases hs : soundingAt s j note = true
      · exact absurd (huni j hs) hji
      · rw [soundingAt] at hs
        simpa using hs
  have hstart_sound : ∀ u : Voice F,
      soundsNote (some (u.start ops note velocity)) note = true := by
    intro u
    simp [soundsNote, Voice.is_active, Envelope.is_idle, start_active, start_state,
      start_note]
  rcases hscan : firstIdx (fun v => !Voice.is_active v)
      (updateAt s.voices i Voice.stop) with _ | k
  · -- no free voice: steal index 0
    have hlen₁ : 0 < (updateAt s.voices i Voice.stop).length := by
      rw [updateAt_length]
      omega
    have hne : (updateAt s.voices i Voice.stop).isEmpty = false := by
      cases hl : updateAt s.voices i Voice.stop with
      | nil => rw [hl] at hlen₁; simp at hlen₁
      | cons a as => rfl
    obtain ⟨w0, hw0⟩ : ∃ w0, (updateAt s.voices i Voice.stop).get? 0 = some w0 := by
      cases hl : updateAt s.voices i Voice.stop with
      | nil => rw [hl] at hlen₁; simp at hlen₁
      | cons a as => exact ⟨a, rfl⟩
    refine ⟨0, ?_, ?_, ?_, ?_⟩
    · simp [BasicSynth.note_on, hmap, hscan, hne]
    · rw [soundingAt]
      simp only [BasicSynth.note_on, hmap, hscan, hne, Bool.not_false, if_true]
      rw [updateAt_get?_self, hw0]
      exact hstart_sound w0
    · intro j hj
      by_cases hj0 : j = 0
      · exact hj0
      · exfalso
        rw [soundingAt] at hj
        simp only [BasicSynth.note_on, hmap, hscan, hne, Bool.not_false, if_true] at hj
        rw [updateAt_get?_ne _ _ _ _ hj0, hstop_sound j] at hj
        exact Bool.false_ne_true hj
    · intro hki
      rw [envStateAt]
      simp only [BasicSynth.note_on, hmap, hscan, hne, Bool.not_false, if_true]
      rw [updateAt_get?_ne _ _ _ _ (Ne.symm hki), hstop, Option.map_some']
      rw [stop_state_of_ne w hwS]
  · -- a free voice k was found
    obtain ⟨hklen, wk, hwk, hwk_inact⟩ := firstIdx_some _ _ _ hscan
    have hki : k ≠ i := by
      intro hk
      subst hk
      rw [hstop] at hwk
      cases hwk
      rw [is_active_stop_of w hwA hwS] at hwk_inact
      simp at hwk_inact
    refine ⟨k, ?_, ?_, ?_, ?_⟩
    · simp [BasicSynth.note_on, hmap, hscan]
    · rw [soundingAt]
      simp only [BasicSynth.note_on, hmap, hscan]
      rw [updateAt_get?_self, hwk]
      exact hstart_sound wk
    · intro j hj
      by_cases hjk : j = k
      · exact hjk
      · exfalso
        rw [soundingAt] at hj
        simp only [BasicSynth.note_on, hmap, hscan] at hj
        rw [updateAt_get?_ne _ _ _ _ hjk, hstop_sound j] at hj
        exact Bool.false_ne_true hj
    · intro _
      rw [envStateAt]
      simp only [BasicSynth.note_on, hmap, hscan]
      rw [updateAt_get?_ne _ _ _ _ (Ne.symm hki), hstop, Option.map_some']
      rw [stop_state_of_ne w hwS]


/-- C4 counterexample: retriggering note 60 immediately after starting it
leaves the old voice (index 0) active in its release tail while the newly
assigned voice (index 1) also actively holds note 60 — two voices are
simultaneously active (`is_active`) holding the same note, which the
claim as stated rules out. -/
theorem retrigger_double_active_counterexample :
    voiceHolds (((BasicSynth.new ratOps).note_on ratOps 60 (1/2)).note_on ratOps 60 (1/2))
      0 60 = true ∧
      voiceHolds (((BasicSynth.new ratOps).note_on ratOps 60 (1/2)).note_on ratOps 60 (1/2))
        1 60 = true := by
  constructor <;> decide

/-- Witness for C4 (amended): the synth right after one note-on for 60. -/
theorem retrigger_stops_then_unique_witness :
    let s : BasicSynth ℚ := (BasicSynth.new ratOps).note_on ratOps 60 (1/2)
    (s.note_to_voice 60 = some 0 ∧
        (∃ w, s.voices.get? 0 = some w ∧ w.active = true ∧
          w.envelope.state ≠ EnvelopeState.Idle) ∧
        (∀ j, soundingAt s j 60 = true → j = 0)) ∧
      (∃ k, (s.note_on ratOps 60 (1/2)).note_to_voice 60 = some k ∧
        soundingAt (s.note_on ratOps 60 (1/2)) k 60 = true ∧
        (∀ j, soundingAt (s.note_on ratOps 60 (1/2)) j 60 = true → j = k) ∧
        (k ≠ 0 → envStateAt (s.note_on ratOps 60 (1/2)) 0
          = some EnvelopeState.Release)) := by
  intro s
  have h1 : s.note_to_voice 60 = some 0 := by decide
  have h2 : ∃ w, s.voices.get? 0 = some w ∧ w.active = true ∧
      w.envelope.state ≠ EnvelopeState.Idle := by
    refine ⟨_, rfl, by decide, by decide⟩
  have hbdd : ∀ j, j < 16 → soundingAt s j 60 = true → j = 0 := by decide
  have hlen : s.voices.length = 16 := by decide
  have h3 : ∀ j, soundingAt s j 60 = true → j = 0 := by
    intro j hj
    rcases lt_or_ge j 16 with hlt | hge
    · exact hbdd j hlt hj
    · exfalso
      rw [soundingAt, List.get?_eq_none.mpr (by omega)] at hj
      simp [soundsNote] at hj
  exact ⟨⟨h1, h2, h3⟩, retrigger_stops_then_unique ratOps s 60 (1/2) 0 h1 h2 h3⟩


/-! ## C5: pool allocation and stealing -/

theorem poolState_nil (ops : Ops F) (velocity : F) :
    poolState ops [] velocity = BasicSynth.new ops := rfl

theorem firstIdx_beq_eq_none (ns : List ℕ) (n : ℕ) (h : n ∉ ns) :
    firstIdx (fun m => m == n) ns = none := by
  apply firstIdx_none_of_all
  intro a ha
  simp only [beq_eq_false_iff_ne, ne_eq]
  intro han
  exact h (han ▸ ha)

theorem firstIdx_pool (ops : Ops F) (ns : List ℕ) (velocity : F) (k : ℕ) :
    firstIdx (fun v => !Voice.is_active v)
      (ns.map (fun n => startedVoice ops n velocity) ++ List.replicate k (Voice.new ops))
      = if k = 0 then none else some ns.length := by
  induction ns with
  | nil =>
      cases k with
      | zero => simp [firstIdx]
      | succ k =>
          simp only [List.map_nil, List.nil_append, List.replicate_succ]
          rw [firstIdx_cons_pos _ _ _ (by simp [is_active_new])]
          simp
  | cons n ns ih =>
      simp only [List.map_cons, List.cons_append]
      rw [firstIdx_cons_neg _ _ _ (by simp [startedVoice, is_active_start]), ih]
      cases k with
      | zero => simp
      | succ k => simp

theorem firstIdx_append_singleton {α : Type} (p : α → Bool) (l : List α) (a : α) :
    firstIdx p (l ++ [a]) =
      (match firstIdx p l with
       | some i => some i
       | none => if p a then some l.length else none) := by
  induction l with
  | nil => cases h : p a <;> simp [firstIdx, h]
  | cons b bs ih =>
      cases hb : p b
      · rw [List.cons_append, firstIdx_cons_neg _ _ _ hb, firstIdx_cons_neg _ _ _ hb, ih]
        cases h : firstIdx p bs <;> cases ha : p a <;> simp [h, ha]
      · rw [List.cons_append, firstIdx_cons_pos _ _ _ hb, firstIdx_cons_pos _ _ _ hb]

theorem updateAt_append_of_length {α : Type} (l₁ l₂ : List α) (i : ℕ) (f : α → α)
    (h : i = l₁.length) : updateAt (l₁ ++ l₂) i f = l₁ ++ updateAt l₂ 0 f := by
  subst h
  induction l₁ with
  | nil => rfl
  | cons a as ih => simpa [updateAt] using ih

/-- One `note_on` for a fresh note on a non-full in-order pool assigns the
first free slot, i.e. the next index. -/
theorem note_on_poolState (ops : Ops F) (ns : List ℕ) (n : ℕ) (velocity : F)
    (hlen : ns.length < MAX_VOICES) (hmem : n ∉ ns) :
    (poolState ops ns velocity).note_on ops n velocity
      = poolState ops (ns ++ [n]) velocity := by
  have hlookup : (poolState ops ns velocity).note_to_voice n = none :=
    firstIdx_beq_eq_none ns n hmem
  have hk0 : MAX_VOICES - ns.length ≠ 0 := by omega
  have hscan : firstIdx (fun v => !Voice.is_active v)
      (poolState ops ns velocity).voices = some ns.length := by
    show firstIdx (fun v => !Voice.is_active v)
      (ns.map (fun m => startedVoice ops m velocity)
        ++ List.replicate (MAX_VOICES - ns.length) (Voice.new ops)) = _
    rw [firstIdx_pool, if_neg hk0]
  have hvoices : updateAt (poolState ops ns velocity).voices ns.length
      (fun v => v.start ops n velocity)
      = (ns ++ [n]).map (fun m => startedVoice ops m velocity)
        ++ List.replicate (MAX_VOICES - (ns ++ [n]).length) (Voice.new ops) := by
    show updateAt (ns.map (fun m => startedVoice ops m velocity)
        ++ List.replicate (MAX_VOICES - ns.length) (Voice.new ops)) ns.length
        (fun v => v.start ops n velocity) = _
    obtain ⟨k, hk⟩ : ∃ k, MAX_VOICES - ns.length = k + 1 :=
      ⟨MAX_VOICES - ns.length - 1, by omega⟩
    have h2 : MAX_VOICES - (ns ++ [n]).length = k := by
      simp only [List.length_append, List.length_singleton]
      omega
    rw [hk, h2, updateAt_append_of_length _ _ _ _ (by simp), List.map_append,
      List.append_assoc]
    rfl
  have hmapfun : (fun k => if k = n then some ns.length
        else (poolState ops ns velocity).note_to_voice k)
      = fun m => firstIdx (fun x => x == m) (ns ++ [n]) := by
    funext m
    rw [firstIdx_append_singleton]
    by_cases hmn : m = n
    · subst hmn
      have : firstIdx (fun x => x == m) ns = none := firstIdx_beq_eq_none ns m hmem
      rw [this]
      simp
    · rw [if_neg hmn]
      show firstIdx (fun x => x == m) ns = _
      cases h : firstIdx (fun x => x == m) ns
      · simp [h, Ne.symm hmn]
      · simp [h]
  have hstep : (poolState ops ns velocity).note_on ops n velocity
      = { poolState ops ns velocity with
          voices := updateAt (poolState ops ns velocity).voices ns.length
            (fun v => v.start ops n velocity)
          note_to_voice := fun k => if k = n then some ns.length
            else (poolState ops ns velocity).note_to_voice k } := by
    simp [BasicSynth.note_on, hlookup, hscan]
  rw [hstep, hvoices, hmapfun]
  rfl

/-- Folding fresh distinct notes over an in-order pool keeps it in order. -/
theorem foldl_note_on_poolState (ops : Ops F) (velocity : F) :
    ∀ (ms ns : List ℕ), (ns ++ ms).Nodup → ns.length + ms.length ≤ MAX_VOICES →
      ms.foldl (fun s m => s.note_on ops m velocity) (poolState ops ns velocity)
        = poolState ops (ns ++ ms) velocity := by
  intro ms
  induction ms with
  | nil =>
      intro ns _ _
      simp
  | cons m ms ih =>
      intro ns hnd hlen
      have hmem : m ∉ ns := by
        intro hmem
        exact (List.disjoint_of_nodup_append hnd) hmem (List.mem_cons_self m ms)
      have hlt : ns.length < MAX_VOICES := by
        simp only [List.length_cons] at hlen
        omega
      rw [List.foldl_cons, note_on_poolState ops ns m velocity hlt hmem]
      have h2 := ih (ns ++ [m]) (by simpa using hnd)
        (by
          simp only [List.length_cons] at hlen
          simp only [List.length_append, List.length_singleton]
          omega)
      simpa using h2

/-- One `note_on` for a fresh note on a full in-order pool steals slot 0. -/
theorem note_on_poolState_full (ops : Ops F) (ns : List ℕ) (n : ℕ) (velocity : F)
    (hlen : ns.length = MAX_VOICES) (hmem : n ∉ ns) :
    (poolState ops ns velocity).note_on ops n velocity
      = { poolState ops ns velocity with
          voices := updateAt (poolState ops ns velocity).voices 0
            (fun v => v.start ops n velocity)
          note_to_voice := fun k => if k = n then some 0
            else (poolState ops ns velocity).note_to_voice k } := by
  have hlookup : (poolState ops ns velocity).note_to_voice n = none :=
    firstIdx_beq_eq_none ns n hmem
  have hscan : firstIdx (fun v => !Voice.is_active v)
      (poolState ops ns velocity).voices = none := by
    show firstIdx (fun v => !Voice.is_active v)
      (ns.map (fun m => startedVoice ops m velocity)
        ++ List.replicate (MAX_VOICES - ns.length) (Voice.new ops)) = _
    rw [firstIdx_pool, if_pos (by omega)]
  have hlenv : (poolState ops ns velocity).voices.length = MAX_VOICES := by
    show (ns.map (fun m => startedVoice ops m velocity)
      ++ List.replicate (MAX_VOICES - ns.length) (Voice.new ops)).length = _
    simp [hlen]
  have hne : (poolState ops ns velocity).voices.isEmpty = false := by
    cases hl : (poolState ops ns velocity).voices with
    | nil => rw [hl] at hlenv; simp [MAX_VOICES] at hlenv
    | cons a as => rfl
  simp [BasicSynth.note_on, hlookup, hscan, hne]


theorem note_on_voices_length (ops : Ops F) (s : BasicSynth F) (m : ℕ) (velocity : F) :
    (s.note_on ops m velocity).voices.length = s.voices.length := by
  rcases h1 : s.note_to_voice m with _ | i
  · rcases h2 : firstIdx (fun v => !Voice.is_active v) s.voices with _ | j
    · cases h3 : s.voices.isEmpty <;>
        simp [BasicSynth.note_on, h1, h2, h3, updateAt_length]
    · simp [BasicSynth.note_on, h1, h2, updateAt_length]
  · rcases h2 : firstIdx (fun v => !Voice.is_active v)
        (updateAt s.voices i Voice.stop) with _ | j
    · cases h3 : (updateAt s.voices i Voice.stop).isEmpty <;>
        simp [BasicSynth.note_on, h1, h2, h3, updateAt_length]
    · simp [BasicSynth.note_on, h1, h2, updateAt_length]

theorem foldl_note_on_length (ops : Ops F) (velocity : F) (l : List ℕ) :
    ∀ s : BasicSynth F,
      (l.foldl (fun s m => s.note_on ops m velocity) s).voices.length
        = s.voices.length := by
  induction l with
  | nil => intro s; rfl
  | cons a as ih =>
      intro s
      rw [List.foldl_cons, ih, note_on_voices_length]

/-- C5: starting from the fresh pool, allocating `MAX_VOICES` distinct
notes and then one more fresh note never yields more than `MAX_VOICES`
active voices (at every prefix of the sequence), and the overflowing note
is deterministically assigned to voice index 0, which then actively holds
it (unconditional stealing of voice 0). -/
theorem pool_overflow_steals_voice_zero (ops : Ops F) (ns : List ℕ) (n : ℕ)
    (velocity : F) (hnd : (ns ++ [n]).Nodup) (hlen : ns.length = MAX_VOICES) :
    (((ns ++ [n]).foldl (fun s m => s.note_on ops m velocity)
        (BasicSynth.new ops)).note_to_voice n = some 0) ∧
      ((((ns ++ [n]).foldl (fun s m => s.note_on ops m velocity)
          (BasicSynth.new ops)).voices.get? 0).map
        (fun w => (w.note, Voice.is_active w)) = some (n, true)) ∧
      (∀ k : ℕ, ((((ns ++ [n]).take k).foldl (fun s m => s.note_on ops m velocity)
          (BasicSynth.new ops)).voices.filter
            (fun w => Voice.is_active w)).length ≤ MAX_VOICES) := by
  have hfold : ∀ l : List ℕ, l.Nodup → l.length ≤ MAX_VOICES →
      l.foldl (fun s m => s.note_on ops m velocity) (BasicSynth.new ops)
        = poolState ops l velocity := by
    intro l hl hlenl
    have h := foldl_note_on_poolState ops velocity l [] (by simpa using hl)
      (by simpa using hlenl)
    rw [poolState_nil] at h
    simpa using h
  have hnod_ns : ns.Nodup := (List.nodup_append.mp hnd).1
  have hmem : n ∉ ns := by
    intro hmem
    exact (List.disjoint_of_nodup_append hnd) hmem (by simp)
  have hsplit : (ns ++ [n]).foldl (fun s m => s.note_on ops m velocity)
      (BasicSynth.new ops) = (poolState ops ns velocity).note_on ops n velocity := by
    rw [List.foldl_append, hfold ns hnod_ns (le_of_eq hlen), List.foldl_cons,
      List.foldl_nil]
  have hsteal := note_on_poolState_full ops ns n velocity hlen hmem
  obtain ⟨n₀, ns', rfl⟩ : ∃ n₀ ns', ns = n₀ :: ns' := by
    cases ns with
    | nil => simp [MAX_VOICES] at hlen
    | cons a l => exact ⟨a, l, rfl⟩
  have hget0 : (poolState ops (n₀ :: ns') velocity).voices.get? 0
      = some (startedVoice ops n₀ velocity) := rfl
  refine ⟨?_, ?_, ?_⟩
  · rw [hsplit, hsteal]
    simp
  · rw [hsplit, hsteal]
    show ((updateAt (poolState ops (n₀ :: ns') velocity).voices 0
      (fun v => v.start ops n velocity)).get? 0).map
        (fun w => (w.note, Voice.is_active w)) = some (n, true)
    rw [updateAt_get?_self, hget0]
    simp [start_note, is_active_start]
  · intro k
    have h1 := List.length_filter_le (fun w => Voice.is_active w)
      ((((n₀ :: ns') ++ [n]).take k).foldl (fun s m => s.note_on ops m velocity)
        (BasicSynth.new ops)).voices
    have h2 := foldl_note_on_length ops velocity (((n₀ :: ns') ++ [n]).take k)
      (BasicSynth.new ops)
    have h3 : (BasicSynth.new ops).voices.length = MAX_VOICES := by
      simp [BasicSynth.new]
    omega

/-- Witness for C5: the concrete notes 0..15 followed by note 16. -/
theorem pool_overflow_steals_voice_zero_witness :
    ((List.range 16 ++ [16]).Nodup ∧ (List.range 16).length = MAX_VOICES) ∧
      ((((List.range 16 ++ [16]).foldl (fun (s : BasicSynth ℚ) m => s.note_on ratOps m (1/2))
          (BasicSynth.new ratOps)).note_to_voice 16 = some 0) ∧
        ((((List.range 16 ++ [16]).foldl (fun (s : BasicSynth ℚ) m => s.note_on ratOps m (1/2))
            (BasicSynth.new ratOps)).voices.get? 0).map
          (fun (w : Voice ℚ) => (w.note, Voice.is_active w)) = some (16, true)) ∧
        (∀ k : ℕ, ((((List.range 16 ++ [16]).take k).foldl
            (fun (s : BasicSynth ℚ) m => s.note_on ratOps m (1/2))
            (BasicSynth.new ratOps)).voices.filter
              (fun w => Voice.is_active w)).length ≤ MAX_VOICES)) :=
  ⟨⟨by decide, by decide⟩,
    pool_overflow_steals_voice_zero ratOps (List.range 16) 16 (1/2) (by decide) (by decide)⟩


/-! ## C2: the note→voice map invariant -/

theorem process_sample_map (ops : Ops F) (s : BasicSynth F) :
    (s.process_sample ops).2.note_to_voice = s.note_to_voice := by
  rw [BasicSynth.process_sample]

theorem render_voices_get? (ops : Ops F) (params : SynthParameters F)
    (l : List (Voice F)) (j : ℕ) :
    (BasicSynth.render_voices ops params l).2.get? j
      = (l.get? j).map (fun v => if Voice.is_active v
          then (v.next_sample ops params).2 else v) := by
  induction l generalizing j with
  | nil => rfl
  | cons v vs ih =>
      cases j with
      | zero => cases h : Voice.is_active v <;> simp [BasicSynth.render_voices, h]
      | succ j => simpa [BasicSynth.render_voices] using ih j

theorem process_sample_voices_get? (ops : Ops F) (s : BasicSynth F) (j : ℕ) :
    ((s.process_sample ops).2).voices.get? j
      = (s.voices.get? j).map (fun v => if Voice.is_active v
          then (v.next_sample ops { s.params with
            time := if s.params.time + 1 / s.sample_rate > 1000
              then s.params.time + 1 / s.sample_rate - 1000
              else s.params.time + 1 / s.sample_rate }).2
          else v) := by
  rw [BasicSynth.process_sample]
  exact render_voices_get? ops _ s.voices j

theorem note_off_map_point (s : BasicSynth F) (n i m : ℕ)
    (h : s.note_to_voice n = some i) :
    (s.note_off n).note_to_voice m = if m = n then none else s.note_to_voice m := by
  simp [BasicSynth.note_off, h]

theorem note_off_voices_of (s : BasicSynth F) (n i : ℕ)
    (h : s.note_to_voice n = some i) :
    (s.note_off n).voices = updateAt s.voices i Voice.stop := by
  simp [BasicSynth.note_off, h]

theorem note_off_params (s : BasicSynth F) (n : ℕ) :
    (s.note_off n).params = s.params := by
  rcases h : s.note_to_voice n with _ | i <;> simp [BasicSynth.note_off, h]

theorem note_off_sample_rate (s : BasicSynth F) (n : ℕ) :
    (s.note_off n).sample_rate = s.sample_rate := by
  rcases h : s.note_to_voice n with _ | i <;> simp [BasicSynth.note_off, h]

theorem stop_envelope (v : Voice F) : (Voice.stop v).envelope = v.envelope.release := rfl

theorem start_envelope (ops : Ops F) (v : Voice F) (n : ℕ) (vel : F) :
    (v.start ops n vel).envelope = v.envelope.trigger := by
  simp [Voice.start, Voice.update_frequency]

theorem new_envelope (ops : Ops F) : (Voice.new ops).envelope = Envelope.new 44100 := rfl

set_option maxHeartbeats 1000000 in
/-- For an active voice, `next_sample` keeps the `active` flag and drives
the envelope through the four parameter setters and one `next_value`. -/
theorem next_sample_envelope_fields (ops : Ops F) (params : SynthParameters F)
    (v : Voice F) (h : Voice.is_active v = true) :
    ((v.next_sample ops params).2).active = v.active ∧
      ((v.next_sample ops params).2).envelope =
        (((((v.envelope.set_attack (params.get_parameter Parameter.Attack * 5)).set_decay
          (params.get_parameter Parameter.Decay * 5)).set_sustain
          (params.get_parameter Parameter.Sustain)).set_release
          (params.get_parameter Parameter.Release * 5)).next_value).2 := by
  rw [Voice.next_sample, if_neg (by simp [h])]
  constructor <;>
    · simp only [Oscillator.get_frequency]
      split_ifs <;> rfl

theorem reachable_foldl_note_on (ops : Ops F) (velocity : F) (l : List ℕ)
    (s : BasicSynth F) (h : Reachable ops s) :
    Reachable ops (l.foldl (fun s m => s.note_on ops m velocity) s) := by
  induction l generalizing s with
  | nil => exact h
  | cons a as ih => exact ih _ (Reachable.note_on s a velocity h)


set_option maxHeartbeats 1000000 in
/-- C2 (code-bug exhibit): the map invariant fails on a reachable state.
Seventeen distinct note-ons fill the pool and steal voice 0 for note 16
while leaving the stale entry `0 ↦ 0` behind; `note_off 0` then releases
voice 0 (silencing note 16), and one rendered sample decays the release
(from value 0) to Idle.  The resulting reachable state maps note 16 to
voice 0 although voice 0 reports inactive. -/
theorem map_invariant_counterexample (ops : Ops ℚ) :
    ∃ s : BasicSynth ℚ, Reachable ops s ∧ ¬ mapInvariant s := by
  have hnodup : (List.range 16).Nodup := List.nodup_range 16
  have hfold0 : (List.range 16).foldl (fun s n => s.note_on ops n (1/2))
      (BasicSynth.new ops) = poolState ops (List.range 16) (1/2) := by
    have h := foldl_note_on_poolState ops (1/2) (List.range 16) []
      (by simpa using hnodup) (by simp [MAX_VOICES])
    rw [poolState_nil] at h
    simpa using h
  have hfold : (List.range 17).foldl (fun s n => s.note_on ops n (1/2))
      (BasicSynth.new ops)
      = (poolState ops (List.range 16) (1/2)).note_on ops 16 (1/2) := by
    rw [List.range_succ, List.foldl_append, hfold0, List.foldl_cons, List.foldl_nil]
  have hsteal := note_on_poolState_full ops (List.range 16) 16 (1/2)
    (by simp [MAX_VOICES]) (by simp)
  have hlook0 : ((poolState ops (List.range 16) (1/2)).note_on ops 16
      (1/2)).note_to_voice 0 = some 0 := by
    rw [hsteal]
    show (if (0:ℕ) = 16 then some 0
      else (poolState ops (List.range 16) (1/2)).note_to_voice 0) = some 0
    rw [if_neg (by norm_num)]
    show firstIdx (fun x => x == (0:ℕ)) (List.range 16) = some 0
    decide
  have hpool0 : (poolState ops (List.range 16) (1/2)).voices.get? 0
      = some (startedVoice ops 0 (1/2)) := rfl
  have hv0 : ((poolState ops (List.range 16) (1/2)).note_on ops 16 (1/2)).voices.get? 0
      = some ((startedVoice ops 0 (1/2)).start ops 16 (1/2)) := by
    rw [hsteal]
    show (updateAt (poolState ops (List.range 16) (1/2)).voices 0
      (fun v => v.start ops 16 (1/2))).get? 0 = _
    rw [updateAt_get?_self, hpool0]
    rfl
  have htr : staleTrace ops
      = ((((poolState ops (List.range 16) (1/2)).note_on ops 16 (1/2)).note_off
          0).process_sample ops).2 := by
    rw [staleTrace, hfold]
  have hA : (staleTrace ops).note_to_voice 16 = some 0 := by
    rw [htr, process_sample_map, note_off_map_point _ 0 0 16 hlook0,
      if_neg (by norm_num), hsteal]
    show (if (16:ℕ) = 16 then some 0
      else (poolState ops (List.range 16) (1/2)).note_to_voice 16) = some 0
    rw [if_pos rfl]
  have hstopx : Voice.is_active
      (Voice.stop ((startedVoice ops 0 (1/2)).start ops 16 (1/2))) = true := by
    apply is_active_stop_of
    · exact start_active ops _ 16 (1/2)
    · rw [start_state]
      decide
  have hparams : ((poolState ops (List.range 16) (1/2)).note_on ops 16 (1/2)).params
      = SynthParameters.default := rfl
  have hsr : ((poolState ops (List.range 16) (1/2)).note_on ops 16 (1/2)).sample_rate
      = 44100 := rfl
  have hB : voiceActiveAt (staleTrace ops) 0 = false := by
    rw [voiceActiveAt, htr, process_sample_voices_get?,
      note_off_voices_of _ 0 0 hlook0, note_off_params, note_off_sample_rate,
      hparams, hsr, updateAt_get?_self, hv0]
    rw [Option.map_some', Option.map_some', Option.map_some', Option.getD_some]
    beta_reduce
    rw [if_pos hstopx]
    obtain ⟨hact', henv'⟩ := next_sample_envelope_fields ops _ _ hstopx
    rw [Voice.is_active, hact', henv', stop_active, start_active, stop_envelope,
      start_envelope, startedVoice, start_envelope, new_envelope]
    simp only [SynthParameters.get_parameter, SynthParameters.default, Parameter.get_default]
    have hrel : ((Envelope.new (44100:ℚ)).trigger.trigger).release
        = (⟨44100, .Release, 0, 1/100, 1/10, 7/10, 3/10, 1/441, 1/14700, 1/18900, 0⟩ :
            Envelope ℚ) := by
      norm_num [Envelope.new, Envelope.recalculate_rates, Envelope.trigger, Envelope.release,
        fmax, fmin, Envelope.mk.injEq]
      decide
    rw [hrel]
    have hset : (((((⟨44100, .Release, 0, 1/100, 1/10, 7/10, 3/10, 1/441, 1/14700, 1/18900, 0⟩ :
          Envelope ℚ).set_attack (1/100*5)).set_decay (1/10*5)).set_sustain
          (7/10)).set_release (3/10*5))
        = (⟨44100, .Release, 0, 1/20, 1/2, 7/10, 3/2, 1/2205, 1/73500, 7/661500, 0⟩ :
            Envelope ℚ) := by
      norm_num [Envelope.set_attack, Envelope.set_decay, Envelope.set_sustain,
        Envelope.set_release, Envelope.recalculate_rates, fmax, fmin, Envelope.mk.injEq]
    rw [hset]
    have hnv : (Envelope.next_value
        (⟨44100, .Release, 0, 1/20, 1/2, 7/10, 3/2, 1/2205, 1/73500, 7/661500, 0⟩ :
          Envelope ℚ)).2.is_idle = true := by
      norm_num [Envelope.next_value, Envelope.is_idle]
    rw [hnv]
    decide
  refine ⟨staleTrace ops, ?_, ?_⟩
  · have hreach : Reachable ops ((List.range 17).foldl
        (fun s n => s.note_on ops n (1/2)) (BasicSynth.new ops)) :=
      reachable_foldl_note_on ops (1/2) (List.range 17) _ Reachable.new
    exact Reachable.sample _ (Reachable.note_off _ 0 hreach)
  · intro h
    have hx := h 16 0 hA
    rw [hB] at hx
    exact Bool.false_ne_true hx

end Synth
